import Mathlib

/-!
# A verification development for `arrayfs`

`arrayfs` is a minimal in-memory filesystem backed by fixed-size global
arrays: a 32-slot inode table guarded by an allocation bitmap, a per-inode
array of 8 data pages, and, inside page 0 of every directory inode, a
64-slot directory-entry table guarded by its own occupancy bitmap.  This
file gives a shallow embedding of the storage engine (`arrayfs_new_inode`'s
allocation step, `arrayfs_create`, `str_same`, `arrayfs_lookup`,
`arrayfs_readdir`, `arrayfs_read_datapage`, `arrayfs_write_datapage`,
`arrayfs_fill_super`, `arrayfs_put_super`, `mkfs_arrayfs`) and proves the
specified properties about it.

Modelling conventions:
* machine words are `Nat`; bitmaps are `Nat` read through `Nat.testBit`;
* C byte buffers are `List Nat` (one `Nat` per byte), read through
  `List.getD _ _ 0`; a C string is its bytes up to and including the
  terminating NUL byte (`str_same` never reads a buffer beyond its first
  NUL, so the default byte 0 past the end of the list is never compared
  against live garbage);
* a data page is a byte map `Nat → Nat`, copied wholesale by the
  page-size `memcpy` of the source;
* error returns are `Except Err`; external VFS allocations (`new_inode`,
  `iget_locked`, `d_make_root`) that can only fail for reasons outside the
  engine are represented by oracle parameters where a claim needs them and
  as succeeding otherwise.
-/

/-- Error conditions returned by the engine (`-EINVAL`, `-ENOSPC`,
`-EBUSY`, `-ENOMEM`, `-EIO` in the source). -/
inductive Err where
  | EINVAL
  | ENOSPC
  | EBUSY
  | ENOMEM
  | EIO
deriving DecidableEq, Repr

deriving instance DecidableEq for Except

/-- Linear upward scan: first index `j` with `i ≤ j < i + rem` such that
`p j`, and `i + rem` when there is none.  Shared kernel of the bitmap
search helpers `find_next_bit` and `find_first_zero_bit`. -/
def scan_from (p : Nat → Bool) (i : Nat) : Nat → Nat
  | 0 => i
  | rem + 1 => if p i then i else scan_from p (i + 1) rem

/-- Kernel `find_next_bit(addr, size, offset)`: smallest set-bit index in
`[offset, size)`, or `size` when none exists. -/
def find_next_bit (bm size offset : Nat) : Nat :=
  if size ≤ offset then size else scan_from (fun j => bm.testBit j) offset (size - offset)

/-- Kernel `find_first_zero_bit(addr, size)`: smallest clear-bit index in
`[0, size)`, or `size` when none exists. -/
def find_first_zero_bit (bm size : Nat) : Nat :=
  scan_from (fun j => !bm.testBit j) 0 size

/-- Kernel `set_bit(nr, addr)` on a bitmap word. -/
def set_bit (nr bm : Nat) : Nat := bm ||| 2 ^ nr

/-- The allocation step at the heart of `arrayfs_new_inode` (lines
100–108): scan `disk_inode_bm` for the first clear bit among the 32 inode
slots; on exhaustion return `-ENOSPC` leaving the bitmap alone, otherwise
set the bit and return the claimed index.  (`arrayfs_alloc_inode` performs
the same scan-and-claim on the in-memory inode bitmap.) -/
def alloc_inode_step (bm : Nat) : Nat × Except Err Nat :=
  let ino := find_first_zero_bit bm 32
  if ino = 32 then (bm, Except.error Err.ENOSPC)
  else (set_bit ino bm, Except.ok ino)

/-- `n` successive runs of `alloc_inode_step`, returning the final bitmap
and the list of per-call results. -/
def alloc_iter (bm : Nat) : Nat → Nat × List (Except Err Nat)
  | 0 => (bm, [])
  | n + 1 =>
    let r := alloc_inode_step bm
    let rest := alloc_iter r.1 n
    (rest.1, r.2 :: rest.2)

/-- `struct arrayfs_disk_inode { umode_t mode; unsigned long size; }`. -/
structure DiskInode where
  mode : Nat
  size : Nat
deriving DecidableEq, Repr

/-- `struct arrayfs_dir_entry { char name[32]; u32 ino; }`.  The `name`
list holds the bytes written at the 32-byte field; a list longer than 32
records a `strcpy` overflow past the field (see `strcpy_written`). -/
structure DirEntry where
  name : List Nat
  ino : Nat
deriving DecidableEq, Repr

/-- `struct arrayfs_dir_data { unsigned long bitmap; struct
arrayfs_dir_entry entries[64]; }` — the directory table living in page 0
of a directory inode's data region. -/
structure DirData where
  bitmap : Nat
  entries : List DirEntry
deriving DecidableEq, Repr

/-- The zeroed directory entry (globals are zero-initialised in C). -/
def zeroEntry : DirEntry := ⟨[], 0⟩

/-- The zeroed directory table. -/
def zeroDir : DirData := ⟨0, List.replicate 64 zeroEntry⟩

/-- The global backing store: `disk_inode_bm`, `global_inodes`, the
directory tables held in `global_data[i][0]`, and the raw page bytes
`global_data[i][k]` (as `pages ino pageIdx byteOff`).  The directory table
aliases page 0 of its inode in C; the claims under verification touch a
given inode's data either only as a directory table or only as file pages,
so the two views are carried as separate fields. -/
structure FS where
  disk_inode_bm : Nat
  inodes : Nat → DiskInode
  dirdata : Nat → DirData
  pages : Nat → Nat → Nat → Nat

/-- Point update of an integer-indexed store. -/
def updf {α : Type} (f : Nat → α) (i : Nat) (x : α) : Nat → α :=
  fun j => if j = i then x else f j

/-- Read `global_data[d][0]` as a directory table. -/
def FS.dirOf (fs : FS) (d : Nat) : DirData := fs.dirdata d

/-- Read `global_inodes[i]`. -/
def FS.inodeOf (fs : FS) (i : Nat) : DiskInode := fs.inodes i

/-- `S_IFDIR | S_IRWXU | S_IRGRP | S_IXGRP | S_IROTH | S_IXOTH` =
`0o040755`. -/
def rootDirMode : Nat := 0o040755

/-- `S_IFREG | 0o644`, a representative regular-file mode. -/
def regFileMode : Nat := 0o100644

/-- `S_ISREG(m)`: file-type bits (`S_IFMT = 0o170000`) equal
`S_IFREG = 0o100000`. -/
def S_ISREG (m : Nat) : Bool := m &&& 0o170000 == 0o100000

/-- The all-zero global state before `init_arrayfs` runs (C zero-initialises
file-scope arrays). -/
def zeroFS : FS :=
  { disk_inode_bm := 0
    inodes := fun _ => ⟨0, 0⟩
    dirdata := fun _ => zeroDir
    pages := fun _ _ _ => 0 }

/-- `mkfs_arrayfs` (lines 666–676): give inode 0 a directory mode and size
0, reset `disk_inode_bm` to just bit 0, and clear the root directory's
entry bitmap. -/
def mkfs_arrayfs (fs : FS) : FS :=
  { fs with
    inodes := updf fs.inodes 0 ⟨rootDirMode, 0⟩
    disk_inode_bm := set_bit 0 0
    dirdata := updf fs.dirdata 0 { fs.dirOf 0 with bitmap := 0 } }

/-- The freshly formatted filesystem produced at module initialisation. -/
def freshFS : FS := mkfs_arrayfs zeroFS

/-- Bytes written by `strcpy(dst, src)` starting at `dst`: every source
byte up to the first NUL, then the NUL itself.  `strcpy` performs no
bounding, so the write length is `strlen(src) + 1` regardless of the
destination field's width. -/
def strcpy_written (src : List Nat) : List Nat :=
  src.takeWhile (fun b => b ≠ 0) ++ [0]

/-- `arrayfs_create` (lines 139–177); `arrayfs_mkdir` is identical except
for the operation tables it wires up.  Faithful step order: (1) reject
`dirino ≥ 32`; (2) scan the directory bitmap for a free slot, failing with
`-ENOSPC` if none; (3) mark the slot bit; (4) run `arrayfs_new_inode`'s
scan-and-claim on `disk_inode_bm`, failing with `-ENOSPC` if full — the
directory bit marked in (3) is NOT rolled back on this path; (5) populate
`global_inodes[ino]`; (6) `strcpy` the entry name and store the child
index.  The external `new_inode`/`insert_inode_locked` calls are modelled
as succeeding. -/
def arrayfs_create (fs : FS) (dirino : Nat) (name : List Nat) (mode : Nat) :
    FS × Except Err Nat :=
  if 32 ≤ dirino then (fs, Except.error Err.EINVAL)
  else
    let dd := fs.dirOf dirino
    let index := find_first_zero_bit dd.bitmap 64
    if index = 64 then (fs, Except.error Err.ENOSPC)
    else
      let fs1 : FS :=
        { fs with dirdata := updf fs.dirdata dirino { dd with bitmap := set_bit index dd.bitmap } }
      let ino := find_first_zero_bit fs1.disk_inode_bm 32
      if ino = 32 then (fs1, Except.error Err.ENOSPC)
      else
        let fs2 : FS :=
          { fs1 with
            disk_inode_bm := set_bit ino fs1.disk_inode_bm
            inodes := updf fs1.inodes ino ⟨mode, 0⟩ }
        let dd2 := fs2.dirOf dirino
        let fs3 : FS :=
          { fs2 with
            dirdata := updf fs2.dirdata dirino
              { dd2 with entries := dd2.entries.set index ⟨strcpy_written name, ino⟩ } }
        (fs3, Except.ok ino)

/-- Run `arrayfs_create` once per name, threading the state and collecting
each call's result. -/
def createMany (fs : FS) (dirino mode : Nat) : List (List Nat) → FS × List (Except Err Nat)
  | [] => (fs, [])
  | n :: ns =>
    let r := arrayfs_create fs dirino n mode
    let rest := createMany r.1 dirino mode ns
    (rest.1, r.2 :: rest.2)

/-- `str_same` (lines 217–228): compare two byte buffers over at most the
32-byte name field width; unequal at the first differing byte, equal at
`a`'s first NUL when all earlier bytes agreed, and equal when all 32 bytes
agreed. -/
def str_same_aux (a b : List Nat) : Nat → Nat → Bool
  | 0, _ => true
  | rem + 1, i =>
    if a.getD i 0 ≠ b.getD i 0 then false
    else if a.getD i 0 = 0 then true
    else str_same_aux a b rem (i + 1)

/-- `str_same(a, b)` with the loop bound `i < 32` of the source. -/
def str_same (a b : List Nat) : Bool := str_same_aux a b 32 0

/-- Index of the first NUL byte of `a` within the 32-byte field width, or
32 when the field holds no NUL. -/
def firstNul (a : List Nat) : Nat := scan_from (fun i => a.getD i 0 == 0) 0 32

/-- The spec's bounded NUL-terminated equality, stated from its words:
two names are equal iff all bytes up to and including the first NUL, or
all 32 bytes of the field width, match. -/
def namesEqualSpec (a b : List Nat) : Bool :=
  decide (∀ i, i < min 32 (firstNul a + 1) → a.getD i 0 = b.getD i 0)

/-- The lookup loop of `arrayfs_lookup` (lines 249–265): repeatedly jump
to the next set bit of the occupancy bitmap (starting from slot 0, i.e.
`index + 1` with `index = -1`), stopping not-found at 64 and returning the
stored child inode number at the first slot whose name `str_same`-matches
the searched name.  `fuel` bounds the recursion; each step strictly
increases the scan start, so fuel 64 from start 0 is never exhausted. -/
def lookup_loop (d : DirData) (search : List Nat) : Nat → Nat → Option Nat
  | 0, _ => none
  | fuel + 1, start =>
    let index := find_next_bit d.bitmap 64 start
    if 64 ≤ index then none
    else if str_same ((d.entries.getD index zeroEntry).name) search then
      some (d.entries.getD index zeroEntry).ino
    else lookup_loop d search fuel (index + 1)

/-- `arrayfs_lookup` (lines 230–270) restricted to the engine: the
directory-table search returning the first matching child inode number,
`none` on a miss (the VFS then splices a negative dentry), and `-EINVAL`
for an out-of-range directory inode. -/
def arrayfs_lookup (fs : FS) (dirino : Nat) (search : List Nat) :
    Except Err (Option Nat) :=
  if 32 ≤ dirino then Except.error Err.EINVAL
  else Except.ok (lookup_loop (fs.dirOf dirino) search 64 0)

/-- The spec's description of lookup (§4.3): iterate set bits in ascending
index order and return the first slot whose name field equals the search
name under the bounded NUL-terminated comparison. -/
def lookup_spec (d : DirData) (search : List Nat) : Option Nat :=
  ((List.range 64).find? fun i =>
      d.bitmap.testBit i && namesEqualSpec ((d.entries.getD i zeroEntry).name) search).map
    fun i => (d.entries.getD i zeroEntry).ino


/-- `arrayfs_read_datapage` (lines 374–397): with `page->index ≥ 8` or
`ino ≥ 32` it returns 0 without copying anything (the page stays absent);
otherwise it copies the whole backing page into the cache page, marks it
up to date, and returns 0.  The result is the page delivered to the cache
(`none` = nothing copied) paired with the C return value. -/
def arrayfs_read_datapage (fs : FS) (ino index : Nat) : Option (Nat → Nat) × Int :=
  if 8 ≤ index then (none, 0)
  else if 32 ≤ ino then (none, 0)
  else (some (fs.pages ino index), 0)

/-- `arrayfs_write_datapage` (lines 421–445): with `page->index ≥ 8` or
`ino ≥ 32` it returns 0 without touching the backing array (the write is
dropped); otherwise it copies the whole cache page over the backing page
and returns 0. -/
def arrayfs_write_datapage (fs : FS) (ino index : Nat) (B : Nat → Nat) : FS × Int :=
  if 8 ≤ index then (fs, 0)
  else if 32 ≤ ino then (fs, 0)
  else
    ({ fs with
        pages := fun i => if i = ino then (fun k => if k = index then B else fs.pages i k)
                          else fs.pages i }, 0)

/-- The process-global mount state: `global_sb.mounted`, the in-memory
inode bitmap `global_sb.inode_bm`, and the backing store `fs`. -/
structure Sys where
  mounted : Bool
  inode_bm : Nat
  fs : FS

/-- `arrayfs_fill_super` (lines 598–644).  Under `m_lock`: an already
mounted system yields `-EBUSY` with nothing touched; otherwise the mounted
flag is set and `inode_bm` reset, then the root inode handle and root
dentry are constructed (`arrayfs_iget(sb, 0)` / `d_make_root`) — their
only failure modes are external allocation failures, modelled by the
oracle `rootErr`; on such a failure the error is returned and `mounted`
is rolled back to 0. -/
def arrayfs_fill_super (s : Sys) (rootErr : Option Err) : Sys × Except Err Unit :=
  if s.mounted then (s, Except.error Err.EBUSY)
  else
    let s1 : Sys := { s with mounted := true, inode_bm := 0 }
    match rootErr with
    | some e => ({ s1 with mounted := false }, Except.error e)
    | none => (s1, Except.ok ())

/-- `arrayfs_put_super` (lines 533–538), reached from `arrayfs_umount` via
`kill_anon_super`: under `m_lock`, clear the mounted flag.  Nothing else
is written. -/
def arrayfs_put_super (s : Sys) : Sys := { s with mounted := false }

/-- A mount-lifecycle transition: a mount attempt (with its
root-construction oracle) or an unmount. -/
inductive MountOp where
  | mnt (rootErr : Option Err)
  | umnt
deriving DecidableEq, Repr

/-- Run a sequence of mount/unmount transitions, collecting each mount
attempt's result. -/
def run_ops (s : Sys) : List MountOp → Sys × List (Except Err Unit)
  | [] => (s, [])
  | MountOp.mnt re :: ops =>
    let r := arrayfs_fill_super s re
    let rest := run_ops r.1 ops
    (rest.1, r.2 :: rest.2)
  | MountOp.umnt :: ops => run_ops (arrayfs_put_super s) ops

/-- One record handed to `dir_emit` by `arrayfs_readdir`: the entry name
up to its first NUL byte (`strlen` bytes), the child inode number, and
whether the child's stored mode is a regular file (`DT_REG` vs `DT_DIR`).
-/
structure EmitRec where
  name : List Nat
  ino : Nat
  isReg : Bool
deriving DecidableEq, Repr

/-- The record `arrayfs_readdir` emits for occupied slot `index` of
directory table `d`. -/
def emitOf (fs : FS) (d : DirData) (index : Nat) : EmitRec :=
  let e := d.entries.getD index zeroEntry
  { name := e.name.takeWhile (fun b => b ≠ 0)
    ino := e.ino
    isReg := S_ISREG (fs.inodeOf e.ino).mode }

/-- The iteration loop of `arrayfs_readdir` (lines 300–320): jump to the
next set bit at or above `pos`; at 64 set `ctx->pos` to 64 and return 0;
otherwise read the slot's child inode number, returning 1 (with `ctx->pos`
still at its last value) if it is ≥ 32, else emit the entry and continue
from `index + 1`.  `dir_emit` is modelled as always accepting.  Returns
(entries emitted, final `ctx->pos`, C return value).  Each step strictly
increases `pos`, so fuel 65 from `pos = 0` is never exhausted. -/
def readdir_loop (fs : FS) (d : DirData) : Nat → Nat → List EmitRec × Nat × Int
  | 0, pos => ([], pos, 0)
  | fuel + 1, pos =>
    let index := find_next_bit d.bitmap 64 pos
    if 64 ≤ index then ([], 64, 0)
    else
      let child := (d.entries.getD index zeroEntry).ino
      if 32 ≤ child then ([], pos, 1)
      else
        let rest := readdir_loop fs d fuel (index + 1)
        (emitOf fs d index :: rest.1, rest.2)

/-- `arrayfs_readdir` (lines 283–322): `-EINVAL` for an out-of-range
directory inode, otherwise the iteration loop from the caller's cursor. -/
def arrayfs_readdir (fs : FS) (dirino pos : Nat) :
    Except Err (List EmitRec × Nat × Int) :=
  if 32 ≤ dirino then Except.error Err.EINVAL
  else Except.ok (readdir_loop fs (fs.dirOf dirino) 65 pos)

/-- A 32-character file name (32 `'a'` bytes) with its NUL terminator: one
character too long for the 32-byte entry name field. -/
def longName : List Nat := List.replicate 32 97 ++ [0]

/-- The freshly formatted store with every disk-inode slot already
allocated (all 32 bits of `disk_inode_bm` set): the root directory still
has all 64 entry slots free. -/
def fullInodeFS : FS := { freshFS with disk_inode_bm := 2 ^ 32 - 1 }

/-- The freshly formatted store whose root directory table is completely
occupied (all 64 occupancy bits set). -/
def fullDirFS : FS :=
  { freshFS with dirdata := updf freshFS.dirdata 0 { freshFS.dirOf 0 with bitmap := 2 ^ 64 - 1 } }

/-- 32 pairwise-distinct one-character names (`"\x01"`, `"\x02"`, …). -/
def names32 : List (List Nat) := (List.range 32).map fun k => [k + 1, 0]

/-- A mounted system over the fresh store. -/
def sysMounted : Sys := { mounted := true, inode_bm := 0, fs := freshFS }

/-- An unmounted system over the fresh store. -/
def sysIdle : Sys := { mounted := false, inode_bm := 0, fs := freshFS }

/-- A directory table with entry 3 occupied by name `"a"` and child inode
number 40 ≥ 32, and entry 1 occupied by name `"b"` and child inode 5: slot
1 is reachable and valid, slot 3 carries an out-of-range child. -/
def badSlotDir : DirData :=
  { bitmap := 2 ^ 1 + 2 ^ 3
    entries := ((List.replicate 64 zeroEntry).set 1 ⟨[98, 0], 5⟩).set 3 ⟨[97, 0], 40⟩ }

/-- A directory table with slots 2 and 5 occupied by valid children. -/
def goodDir : DirData :=
  { bitmap := 2 ^ 2 + 2 ^ 5
    entries := ((List.replicate 64 zeroEntry).set 2 ⟨[97, 0], 7⟩).set 5 ⟨[99, 0], 9⟩ }

/-- The fresh store with `badSlotDir` installed as directory 0's table. -/
def badSlotFS : FS := { freshFS with dirdata := updf freshFS.dirdata 0 badSlotDir }

/-- The fresh store with `goodDir` installed as directory 0's table. -/
def goodDirFS : FS := { freshFS with dirdata := updf freshFS.dirdata 0 goodDir }

set_option maxRecDepth 10000

theorem scan_from_le (p : Nat → Bool) : ∀ rem i, i ≤ scan_from p i rem := by
  intro rem
  induction rem with
  | zero => intro i; simp [scan_from]
  | succ n ih =>
    intro i
    simp only [scan_from]
    split
    · exact Nat.le_refl i
    · exact Nat.le_trans (Nat.le_succ i) (ih (i + 1))

theorem scan_from_spec (p : Nat → Bool) :
    ∀ rem i,
      (scan_from p i rem = i + rem ∧ ∀ j, i ≤ j → j < i + rem → p j = false) ∨
      (i ≤ scan_from p i rem ∧ scan_from p i rem < i + rem ∧
        p (scan_from p i rem) = true ∧
        ∀ j, i ≤ j → j < scan_from p i rem → p j = false) := by
  intro rem
  induction rem with
  | zero =>
    intro i
    left
    constructor
    · simp [scan_from]
    · intro j hj hj'
      omega
  | succ n ih =>
    intro i
    simp only [scan_from]
    by_cases hpi : p i = true
    · rw [if_pos hpi]
      right
      refine ⟨Nat.le_refl i, by omega, hpi, ?_⟩
      intro j hj hj'
      omega
    · rw [if_neg hpi]
      have hpf : p i = false := by revert hpi; cases p i <;> simp
      rcases ih (i + 1) with ⟨heq, hnone⟩ | ⟨hle, hlt, hbit, hnone⟩
      · left
        constructor
        · omega
        · intro j hj hj'
          rcases Nat.eq_or_lt_of_le hj with h | h
          · subst h; exact hpf
          · exact hnone j h (by omega)
      · right
        refine ⟨by omega, by omega, hbit, ?_⟩
        intro j hj hj'
        rcases Nat.eq_or_lt_of_le hj with h | h
        · subst h; exact hpf
        · exact hnone j h hj'

/-- `find_next_bit` characterisation: either no set bit at or above
`offset` exists below `size` and the result is `size`, or the result is the
least set-bit index in `[offset, size)`. -/
theorem find_next_bit_spec (bm size offset : Nat) (hoff : offset ≤ size) :
    (find_next_bit bm size offset = size ∧
      ∀ j, offset ≤ j → j < size → bm.testBit j = false) ∨
    (offset ≤ find_next_bit bm size offset ∧ find_next_bit bm size offset < size ∧
      bm.testBit (find_next_bit bm size offset) = true ∧
      ∀ j, offset ≤ j → j < find_next_bit bm size offset → bm.testBit j = false) := by
  unfold find_next_bit
  rcases Nat.eq_or_lt_of_le hoff with h | h
  · left
    constructor
    · simp [h]
    · intro j hj hj'; omega
  · have hns : ¬ size ≤ offset := by omega
    simp only [hns, if_false]
    have := scan_from_spec (fun j => bm.testBit j) (size - offset) offset
    have harith : offset + (size - offset) = size := by omega
    rw [harith] at this
    exact this

/-- When `find_first_zero_bit` finds a slot, that slot's bit is clear. -/
theorem find_first_zero_bit_clear (bm size : Nat)
    (h : find_first_zero_bit bm size ≠ size) :
    bm.testBit (find_first_zero_bit bm size) = false := by
  unfold find_first_zero_bit at *
  rcases scan_from_spec (fun j => !bm.testBit j) size 0 with ⟨heq, _⟩ | ⟨_, _, hbit, _⟩
  · rw [Nat.zero_add] at heq
    exact absurd heq h
  · simpa using hbit

/-- Setting a clear bit changes the bitmap word. -/
theorem set_bit_ne (i bm : Nat) (h : bm.testBit i = false) : set_bit i bm ≠ bm := by
  intro he
  have ht : (set_bit i bm).testBit i = true := by
    simp [set_bit, Nat.testBit_or, Nat.testBit_two_pow_self]
  rw [he, h] at ht
  simp at ht

/-- C3: starting from the empty inode allocation bitmap of capacity 32,
32 successive allocation steps each claim the first clear bit, returning
the pairwise-distinct indices 0..31 (all in `[0, 32)`); the 33rd call
returns the out-of-space condition and leaves the bitmap unchanged. -/
theorem alloc_fills_then_enospc :
    (alloc_iter 0 32).2 = (List.range 32).map Except.ok ∧
    ((alloc_iter 0 32).2.filterMap Except.toOption).Nodup ∧
    (∀ i ∈ (alloc_iter 0 32).2.filterMap Except.toOption, i < 32) ∧
    alloc_inode_step (alloc_iter 0 32).1 = ((alloc_iter 0 32).1, Except.error Err.ENOSPC) :=
  ⟨by decide, by decide, by decide, by decide⟩

/-- C5: for in-range inode and page indices, writing a page and reading it
back returns exactly the written bytes, and reading page index 8 (one past
the last valid index) returns the defined out-of-range result `(none, 0)`
rather than an error. -/
theorem page_write_read_roundtrip :
    (∀ (fs : FS) (ino k : Nat) (B : Nat → Nat), ino < 32 → k < 8 →
        arrayfs_read_datapage (arrayfs_write_datapage fs ino k B).1 ino k = (some B, 0)) ∧
    (∀ (fs : FS) (ino : Nat), arrayfs_read_datapage fs ino 8 = (none, 0)) := by
  constructor
  · intro fs ino k B hino hk
    have h8 : ¬ 8 ≤ k := by omega
    have h32 : ¬ 32 ≤ ino := by omega
    simp [arrayfs_read_datapage, arrayfs_write_datapage, h8, h32]
  · intro fs ino
    simp [arrayfs_read_datapage]

/-- Witness for C5 at inode 1, page 2, the constant-7 page. -/
theorem page_write_read_roundtrip_witness :
    (1 : Nat) < 32 ∧ (2 : Nat) < 8 ∧
    arrayfs_read_datapage (arrayfs_write_datapage zeroFS 1 2 (fun _ => 7)).1 1 2 =
      (some (fun _ => 7), 0) :=
  ⟨by decide, by decide,
    page_write_read_roundtrip.1 zeroFS 1 2 (fun _ => 7) (by decide) (by decide)⟩

/-- C6: a page-level read or write with `page_index ≥ 8` or
`inode_index ≥ 32` is a silent no-op signalling success (return value 0):
the write leaves the backing store untouched and the read delivers no
page. -/
theorem page_oob_silent_noop :
    ∀ (fs : FS) (ino k : Nat) (B : Nat → Nat), 8 ≤ k ∨ 32 ≤ ino →
      arrayfs_write_datapage fs ino k B = (fs, 0) ∧
      arrayfs_read_datapage fs ino k = (none, 0) := by
  intro fs ino k B h
  by_cases hk : 8 ≤ k
  · simp [arrayfs_write_datapage, arrayfs_read_datapage, hk]
  · have hino : 32 ≤ ino := by
      rcases h with h | h
      · omega
      · exact h
    simp [arrayfs_write_datapage, arrayfs_read_datapage, hk, hino]

/-- Witness for C6 at page index 8. -/
theorem page_oob_silent_noop_witness :
    ((8 : Nat) ≤ 8 ∨ (32 : Nat) ≤ 0) ∧
    arrayfs_write_datapage zeroFS 0 8 (fun _ => 7) = (zeroFS, 0) ∧
    arrayfs_read_datapage zeroFS 0 8 = (none, 0) :=
  ⟨Or.inl (by decide),
    (page_oob_silent_noop zeroFS 0 8 (fun _ => 7) (Or.inl (by decide))).1,
    (page_oob_silent_noop zeroFS 0 8 (fun _ => 7) (Or.inl (by decide))).2⟩

/-- C7: at most one successful mount is active at any time.  (1) A mount
attempt on an already-mounted system returns `-EBUSY` and leaves the whole
state — mounted flag, in-memory bitmap and backing store — untouched.
(2) A mount attempt only succeeds from the not-mounted state.  (3) From a
mounted state, along any transition sequence containing no unmount, every
mount attempt returns `-EBUSY` and the state stays pinned. -/
theorem single_active_mount :
    (∀ (s : Sys) (re : Option Err), s.mounted = true →
        arrayfs_fill_super s re = (s, Except.error Err.EBUSY)) ∧
    (∀ (s : Sys) (re : Option Err),
        (arrayfs_fill_super s re).2 = Except.ok () → s.mounted = false) ∧
    (∀ (s : Sys) (ops : List MountOp), s.mounted = true →
        (∀ op ∈ ops, op ≠ MountOp.umnt) →
        run_ops s ops = (s, ops.map fun _ => Except.error Err.EBUSY)) := by
  refine ⟨?_, ?_, ?_⟩
  · intro s re h
    simp [arrayfs_fill_super, h]
  · intro s re h
    cases hb : s.mounted with
    | false => rfl
    | true => simp [arrayfs_fill_super, hb] at h
  · intro s ops hm
    induction ops with
    | nil =>
      intro _
      simp [run_ops]
    | cons op rest ih =>
      intro hno
      cases op with
      | umnt => exact absurd rfl (hno MountOp.umnt (by simp))
      | mnt re =>
        have h1 : arrayfs_fill_super s re = (s, Except.error Err.EBUSY) := by
          simp [arrayfs_fill_super, hm]
        have ih' := ih fun op hop => hno op (List.mem_cons_of_mem _ hop)
        simp [run_ops, h1, ih']

/-- Witness for C7: a mounted system rejects a mount attempt with
`-EBUSY` unchanged, an idle system that mounts successfully was not
mounted, and a no-unmount trace from a mounted state stays pinned. -/
theorem single_active_mount_witness :
    arrayfs_fill_super sysMounted none = (sysMounted, Except.error Err.EBUSY) ∧
    sysIdle.mounted = false ∧
    run_ops sysMounted [MountOp.mnt none] = (sysMounted, [Except.error Err.EBUSY]) :=
  ⟨single_active_mount.1 sysMounted none rfl,
    single_active_mount.2.1 sysIdle none rfl,
    single_active_mount.2.2 sysMounted [MountOp.mnt none] rfl (by decide)⟩

/-- C8: when root-inode-handle (or root-dentry) construction fails during
a mount from the not-mounted state, the error is reported to the caller,
the mounted flag is rolled back to not-mounted, and a following mount
attempt is not rejected as busy. -/
theorem mount_root_failure_rolls_back :
    ∀ (s : Sys) (e : Err), s.mounted = false →
      (arrayfs_fill_super s (some e)).2 = Except.error e ∧
      ((arrayfs_fill_super s (some e)).1).mounted = false ∧
      (arrayfs_fill_super (arrayfs_fill_super s (some e)).1 none).2 = Except.ok () := by
  intro s e h
  refine ⟨?_, ?_, ?_⟩ <;> simp [arrayfs_fill_super, h]

/-- Witness for C8 with an `-ENOMEM` root-construction failure. -/
theorem mount_root_failure_rolls_back_witness :
    sysIdle.mounted = false ∧
    (arrayfs_fill_super sysIdle (some Err.ENOMEM)).2 = Except.error Err.ENOMEM ∧
    ((arrayfs_fill_super sysIdle (some Err.ENOMEM)).1).mounted = false ∧
    (arrayfs_fill_super (arrayfs_fill_super sysIdle (some Err.ENOMEM)).1 none).2 =
      Except.ok () :=
  ⟨rfl,
    (mount_root_failure_rolls_back sysIdle Err.ENOMEM rfl).1,
    (mount_root_failure_rolls_back sysIdle Err.ENOMEM rfl).2.1,
    (mount_root_failure_rolls_back sysIdle Err.ENOMEM rfl).2.2⟩

/-- C9: unmount transitions to not-mounted and changes nothing else — the
backing store (inode records, disk allocation bitmap, every directory
table and bitmap, all page contents, packaged as `Sys.fs`) and the
in-memory inode bitmap are untouched, and the data survives a full
unmount-then-remount cycle. -/
theorem unmount_frame :
    ∀ s : Sys,
      (arrayfs_put_super s).mounted = false ∧
      (arrayfs_put_super s).fs = s.fs ∧
      (arrayfs_put_super s).inode_bm = s.inode_bm ∧
      ((run_ops s [MountOp.umnt, MountOp.mnt none]).1).fs = s.fs ∧
      ((run_ops s [MountOp.umnt, MountOp.mnt none]).1).mounted = true := by
  intro s
  refine ⟨rfl, rfl, rfl, ?_, ?_⟩ <;>
    simp [run_ops, arrayfs_put_super, arrayfs_fill_super]

/-- C1 (code defect): `arrayfs_create` stores entry names with a plain
`strcpy` and no bounding.  On the fresh filesystem, creating the 32-character
name `longName` in the root directory succeeds (it finds free slot 0) and
writes `strlen + 1 = 33` bytes starting at the slot's 32-byte name field —
exceeding the field width, so the stored name is NOT truncated to 31
characters plus a NUL terminator. -/
theorem create_strcpy_overflows_name_field :
    (arrayfs_create freshFS 0 longName regFileMode).2 = Except.ok 1 ∧
    (((arrayfs_create freshFS 0 longName regFileMode).1.dirOf 0).entries.getD 0 zeroEntry).name
      = strcpy_written longName ∧
    (strcpy_written longName).length = 33 ∧
    ¬ (strcpy_written longName).length ≤ 32 :=
  ⟨by decide, by decide, by decide, by decide⟩

/-- C2 counterexample: on the fresh store with every inode slot occupied
(`fullInodeFS`), the root directory has all 64 entry slots free, yet a
create fails with the out-of-space condition while CHANGING the
directory's occupancy bitmap (slot 0's bit is left set) — the claim that a
failed create commits no partial state is false. -/
theorem create_enospc_mutates_dir_bitmap :
    (arrayfs_create fullInodeFS 0 [97, 0] regFileMode).2 = Except.error Err.ENOSPC ∧
    ((arrayfs_create fullInodeFS 0 [97, 0] regFileMode).1.dirOf 0).bitmap ≠
      (fullInodeFS.dirOf 0).bitmap :=
  ⟨by decide, by decide⟩

/-- C2 as amended: (1) a create that fails because the directory has no
free entry slot commits no state change at all; (2) a create that fails
because no free inode slot exists returns out-of-space but leaves the
claimed directory-entry bit newly set, changing the directory's occupancy
bitmap; (3) hence inserting distinct names into one directory on the fresh
filesystem succeeds for the first 31 names and the 32nd returns
out-of-space (inode exhaustion, 31 free inodes beside the root), not the
65th. -/
theorem create_capacity_failure_semantics :
    (∀ (fs : FS) (d : Nat) (name : List Nat) (mode : Nat), d < 32 →
        find_first_zero_bit (fs.dirOf d).bitmap 64 = 64 →
        arrayfs_create fs d name mode = (fs, Except.error Err.ENOSPC)) ∧
    (∀ (fs : FS) (d : Nat) (name : List Nat) (mode : Nat), d < 32 →
        find_first_zero_bit (fs.dirOf d).bitmap 64 ≠ 64 →
        find_first_zero_bit fs.disk_inode_bm 32 = 32 →
        (arrayfs_create fs d name mode).2 = Except.error Err.ENOSPC ∧
        ((arrayfs_create fs d name mode).1.dirOf d).bitmap =
          set_bit (find_first_zero_bit (fs.dirOf d).bitmap 64) (fs.dirOf d).bitmap ∧
        ((arrayfs_create fs d name mode).1.dirOf d).bitmap ≠ (fs.dirOf d).bitmap) ∧
    (createMany freshFS 0 regFileMode names32).2 =
      (List.range 31).map (fun k => Except.ok (k + 1)) ++ [Except.error Err.ENOSPC] := by
  refine ⟨?_, ?_, by decide⟩
  · intro fs d name mode hd hfz
    have hd' : ¬ 32 ≤ d := by omega
    simp [arrayfs_create, hd', hfz]
  · intro fs d name mode hd hne hfull
    have hd' : ¬ 32 ≤ d := by omega
    have hclear : (fs.dirOf d).bitmap.testBit (find_first_zero_bit (fs.dirOf d).bitmap 64)
        = false := find_first_zero_bit_clear _ _ hne
    have hne' : find_first_zero_bit (fs.dirdata d).bitmap 64 ≠ 64 := hne
    refine ⟨?_, ?_, ?_⟩
    · simp [arrayfs_create, hd', hne, hfull]
    · simp [arrayfs_create, hd', hne', hfull, FS.dirOf, updf]
    · simp [arrayfs_create, hd', hne', hfull, FS.dirOf, updf]
      exact set_bit_ne _ _ hclear

/-- Witness for the amended C2: the no-free-entry-slot failure on
`fullDirFS` commits nothing; the no-free-inode failure on `fullInodeFS`
returns out-of-space with the claimed slot's bit newly set. -/
theorem create_capacity_failure_semantics_witness :
    arrayfs_create fullDirFS 0 [97, 0] regFileMode = (fullDirFS, Except.error Err.ENOSPC) ∧
    (arrayfs_create fullInodeFS 0 [97, 0] regFileMode).2 = Except.error Err.ENOSPC ∧
    ((arrayfs_create fullInodeFS 0 [97, 0] regFileMode).1.dirOf 0).bitmap =
      set_bit (find_first_zero_bit (fullInodeFS.dirOf 0).bitmap 64) (fullInodeFS.dirOf 0).bitmap ∧
    ((arrayfs_create fullInodeFS 0 [97, 0] regFileMode).1.dirOf 0).bitmap ≠
      (fullInodeFS.dirOf 0).bitmap :=
  ⟨create_capacity_failure_semantics.1 fullDirFS 0 [97, 0] regFileMode (by decide) (by decide),
    (create_capacity_failure_semantics.2.1 fullInodeFS 0 [97, 0] regFileMode
      (by decide) (by decide) (by decide)).1,
    (create_capacity_failure_semantics.2.1 fullInodeFS 0 [97, 0] regFileMode
      (by decide) (by decide) (by decide)).2.1,
    (create_capacity_failure_semantics.2.1 fullInodeFS 0 [97, 0] regFileMode
      (by decide) (by decide) (by decide)).2.2⟩

theorem str_same_aux_spec (a b : List Nat) :
    ∀ rem i, i + rem = 32 →
      (str_same_aux a b rem i = true ↔
        ∀ j, i ≤ j → j < min 32 (scan_from (fun k => a.getD k 0 == 0) i rem + 1) →
          a.getD j 0 = b.getD j 0) := by
  intro rem
  induction rem with
  | zero =>
    intro i hi
    have hi' : i = 32 := by omega
    subst hi'
    simp only [str_same_aux, scan_from]
    constructor
    · intro _ j hj hj'
      have hm : min 32 (32 + 1) = 32 := by omega
      omega
    · intro _
      trivial
  | succ n ih =>
    intro i hi
    have hi32 : i < 32 := by omega
    by_cases hz : a.getD i 0 = 0
    · have hcp : ((a.getD i 0 == 0) = true) := by simpa using hz
      have hscan : scan_from (fun k => a.getD k 0 == 0) i (n + 1) = i := by
        simp only [scan_from]
        rw [if_pos hcp]
      rw [hscan]
      have hmin : min 32 (i + 1) = i + 1 := by omega
      rw [hmin]
      by_cases hab : a.getD i 0 = b.getD i 0
      · have hL : str_same_aux a b (n + 1) i = true := by
          simp only [str_same_aux]
          rw [if_neg (not_not_intro hab), if_pos hz]
        rw [hL]
        constructor
        · intro _ j hj hj'
          have hji : j = i := by omega
          subst hji
          exact hab
        · intro _
          rfl
      · have hL : str_same_aux a b (n + 1) i = false := by
          simp only [str_same_aux]
          rw [if_pos hab]
        rw [hL]
        constructor
        · intro hft
          exact absurd hft (by simp)
        · intro hr
          exact absurd (hr i (Nat.le_refl i) (by omega)) hab
    · have hcn : ¬ ((a.getD i 0 == 0) = true) := by simpa using hz
      have hscan : scan_from (fun k => a.getD k 0 == 0) i (n + 1) =
          scan_from (fun k => a.getD k 0 == 0) (i + 1) n := by
        simp only [scan_from]
        rw [if_neg hcn]
      rw [hscan]
      by_cases hab : a.getD i 0 = b.getD i 0
      · have hL : str_same_aux a b (n + 1) i = str_same_aux a b n (i + 1) := by
          simp only [str_same_aux]
          rw [if_neg (not_not_intro hab), if_neg hz]
        rw [hL, ih (i + 1) (by omega)]
        constructor
        · intro hr j hj hj'
          rcases Nat.eq_or_lt_of_le hj with he | hlt
          · rw [← he]
            exact hab
          · exact hr j hlt hj'
        · intro hr j hj hj'
          exact hr j (by omega) hj'
      · have hL : str_same_aux a b (n + 1) i = false := by
          simp only [str_same_aux]
          rw [if_pos hab]
        rw [hL]
        constructor
        · intro hft
          exact absurd hft (by simp)
        · intro hr
          refine absurd (hr i (Nat.le_refl i) ?_) hab
          have := scan_from_le (fun k => a.getD k 0 == 0) n (i + 1)
          omega

theorem str_same_eq (a b : List Nat) : str_same a b = namesEqualSpec a b := by
  have h := str_same_aux_spec a b 32 0 (by omega)
  rw [Bool.eq_iff_iff]
  unfold str_same namesEqualSpec firstNul
  rw [decide_eq_true_eq]
  constructor
  · intro hs j hj
    exact (h.mp hs) j (Nat.zero_le j) hj
  · intro hs
    exact h.mpr fun j _ hj => hs j hj

theorem lookup_loop_eq (d : DirData) (s : List Nat) :
    ∀ fuel start, 64 ≤ start + fuel →
      lookup_loop d s fuel start =
        (((List.range' start (64 - start)).find? fun i =>
            d.bitmap.testBit i && str_same (d.entries.getD i zeroEntry).name s).map
          fun i => (d.entries.getD i zeroEntry).ino) := by
  intro fuel
  induction fuel with
  | zero =>
    intro start h
    have h64 : 64 - start = 0 := by omega
    simp [lookup_loop, h64]
  | succ n ih =>
    intro start h
    by_cases hs : 64 ≤ start
    · have h64 : 64 - start = 0 := by omega
      have hnb : find_next_bit d.bitmap 64 start = 64 := by
        unfold find_next_bit
        rw [if_pos hs]
      simp [lookup_loop, hnb, h64]
    · have hslt : start < 64 := by omega
      rcases find_next_bit_spec d.bitmap 64 start (by omega) with
        ⟨hnb, hnone⟩ | ⟨hge, hlt, hbit, hnone⟩
      · have hfind : ((List.range' start (64 - start)).find? fun i =>
            d.bitmap.testBit i && str_same (d.entries.getD i zeroEntry).name s) = none := by
          rw [List.find?_eq_none]
          intro x hx
          rw [List.mem_range'_1] at hx
          have hb : d.bitmap.testBit x = false := hnone x hx.1 (by omega)
          simp [hb]
        simp only [lookup_loop]
        rw [hnb, if_pos (Nat.le_refl 64), hfind]
        rfl
      · set idx := find_next_bit d.bitmap 64 start with hidx
        have hsplit : List.range' start (64 - start) =
            List.range' start (idx - start) ++ List.range' idx (64 - idx) := by
          have h3 : start + (idx - start) = idx := by omega
          have h2 : (64 - idx) + (idx - start) = 64 - start := by omega
          have happ := List.range'_append_1 start (idx - start) (64 - idx)
          rw [h3, h2] at happ
          exact happ.symm
        have hfind1 : ((List.range' start (idx - start)).find? fun i =>
            d.bitmap.testBit i && str_same (d.entries.getD i zeroEntry).name s) = none := by
          rw [List.find?_eq_none]
          intro x hx
          rw [List.mem_range'_1] at hx
          have hb : d.bitmap.testBit x = false := hnone x hx.1 (by omega)
          simp [hb]
        have hrange2 : List.range' idx (64 - idx) =
            idx :: List.range' (idx + 1) (64 - (idx + 1)) := by
          have h4 : 64 - idx = (64 - (idx + 1)) + 1 := by omega
          rw [h4, List.range'_succ]
        rw [hsplit, List.find?_append, hfind1, Option.none_or, hrange2]
        by_cases hmatch : str_same (d.entries.getD idx zeroEntry).name s = true
        · have hpos : (fun i =>
              d.bitmap.testBit i && str_same (d.entries.getD i zeroEntry).name s) idx = true := by
            show (d.bitmap.testBit idx && str_same (d.entries.getD idx zeroEntry).name s) = true
            rw [hbit, hmatch]
            rfl
          rw [List.find?_cons_of_pos (p := fun i =>
            d.bitmap.testBit i && str_same (d.entries.getD i zeroEntry).name s) (a := idx) _ hpos]
          have hL : lookup_loop d s (n + 1) start =
              some (d.entries.getD idx zeroEntry).ino := by
            simp only [lookup_loop, ← hidx]
            rw [if_neg (by omega), if_pos hmatch]
          rw [hL]
          rfl
        · have hneg : ¬ ((fun i =>
              d.bitmap.testBit i && str_same (d.entries.getD i zeroEntry).name s) idx = true) := by
            show ¬ ((d.bitmap.testBit idx && str_same (d.entries.getD idx zeroEntry).name s) = true)
            simp only [Bool.and_eq_true]
            intro hcontra
            exact hmatch hcontra.2
          rw [List.find?_cons_of_neg (p := fun i =>
            d.bitmap.testBit i && str_same (d.entries.getD i zeroEntry).name s) (a := idx) _ hneg]
          have hL : lookup_loop d s (n + 1) start = lookup_loop d s n (idx + 1) := by
            simp only [lookup_loop, ← hidx]
            rw [if_neg (by omega), if_neg hmatch]
          rw [hL, ih (idx + 1) (by omega)]

/-- C4: for every directory table and every search name, `arrayfs_lookup`
returns exactly what the spec describes: scan the occupancy bitmap's set
bits in ascending slot order and return the child inode number of the
first slot whose name field equals the search name under bounded
NUL-terminated comparison (`namesEqualSpec`, the spec's wording; the
helper `str_same_eq` proves it coincides with the source's `str_same`);
`none` when no occupied slot matches — the lookup path performs no writes,
which the embedding reflects by returning a result without a successor
state. -/
theorem lookup_agrees_with_spec :
    ∀ (fs : FS) (dirino : Nat) (search : List Nat),
      arrayfs_lookup fs dirino search =
        if 32 ≤ dirino then Except.error Err.EINVAL
        else Except.ok (lookup_spec (fs.dirOf dirino) search) := by
  intro fs dirino search
  unfold arrayfs_lookup
  by_cases hd : 32 ≤ dirino
  · rw [if_pos hd, if_pos hd]
  · rw [if_neg hd, if_neg hd]
    congr 1
    rw [lookup_loop_eq _ _ 64 0 (by omega)]
    unfold lookup_spec
    have h640 : (64 : Nat) - 0 = 64 := rfl
    rw [h640, ← List.range_eq_range']
    have hpred : (fun i => (fs.dirOf dirino).bitmap.testBit i &&
          str_same ((fs.dirOf dirino).entries.getD i zeroEntry).name search) =
        fun i => (fs.dirOf dirino).bitmap.testBit i &&
          namesEqualSpec ((fs.dirOf dirino).entries.getD i zeroEntry).name search := by
      funext i
      rw [str_same_eq]
    rw [hpred]

theorem readdir_loop_succ (fs : FS) (d : DirData) (fuel pos : Nat) :
    readdir_loop fs d (fuel + 1) pos =
      if 64 ≤ find_next_bit d.bitmap 64 pos then ([], 64, 0)
      else if 32 ≤ (d.entries.getD (find_next_bit d.bitmap 64 pos) zeroEntry).ino then
        ([], pos, 1)
      else (emitOf fs d (find_next_bit d.bitmap 64 pos) ::
          (readdir_loop fs d fuel (find_next_bit d.bitmap 64 pos + 1)).1,
        (readdir_loop fs d fuel (find_next_bit d.bitmap 64 pos + 1)).2) := rfl

theorem filter_range'_split (bm pos idx bound : Nat) (hge : pos ≤ idx) (hlt : idx < bound)
    (hbit : bm.testBit idx = true)
    (hnone : ∀ j, pos ≤ j → j < idx → bm.testBit j = false) :
    ((List.range' pos (bound - pos)).filter fun j => bm.testBit j) =
      idx :: ((List.range' (idx + 1) (bound - (idx + 1))).filter fun j => bm.testBit j) := by
  have hsplit : List.range' pos (bound - pos) =
      List.range' pos (idx - pos) ++ List.range' idx (bound - idx) := by
    have h3 : pos + (idx - pos) = idx := by omega
    have h2 : (bound - idx) + (idx - pos) = bound - pos := by omega
    have happ := List.range'_append_1 pos (idx - pos) (bound - idx)
    rw [h3, h2] at happ
    exact happ.symm
  have hrange2 : List.range' idx (bound - idx) =
      idx :: List.range' (idx + 1) (bound - (idx + 1)) := by
    have h4 : bound - idx = (bound - (idx + 1)) + 1 := by omega
    rw [h4, List.range'_succ]
  have hfilter1 : ((List.range' pos (idx - pos)).filter fun j => bm.testBit j) = [] := by
    rw [List.filter_eq_nil_iff]
    intro x hx
    rw [List.mem_range'_1] at hx
    simp [hnone x hx.1 (by omega)]
  rw [hsplit, List.filter_append, hfilter1, hrange2,
    List.filter_cons_of_pos (p := fun j => bm.testBit j) (a := idx) hbit]
  rfl

theorem readdir_loop_good (fs : FS) (d : DirData) :
    ∀ fuel pos, 64 ≤ pos + fuel →
      (∀ j, j < 64 → d.bitmap.testBit j = true → (d.entries.getD j zeroEntry).ino < 32) →
      readdir_loop fs d (fuel + 1) pos =
        (((List.range' pos (64 - pos)).filter fun j => d.bitmap.testBit j).map (emitOf fs d),
          64, 0) := by
  intro fuel
  induction fuel with
  | zero =>
    intro pos h hgood
    have hpos : 64 ≤ pos := by omega
    have hnb : find_next_bit d.bitmap 64 pos = 64 := by
      unfold find_next_bit
      rw [if_pos hpos]
    have h64 : 64 - pos = 0 := by omega
    rw [readdir_loop_succ, hnb, if_pos (Nat.le_refl 64), h64]
    rfl
  | succ n ih =>
    intro pos h hgood
    by_cases hp : 64 ≤ pos
    · have hnb : find_next_bit d.bitmap 64 pos = 64 := by
        unfold find_next_bit
        rw [if_pos hp]
      have h64 : 64 - pos = 0 := by omega
      rw [readdir_loop_succ, hnb, if_pos (Nat.le_refl 64), h64]
      rfl
    · rcases find_next_bit_spec d.bitmap 64 pos (by omega) with
        ⟨hnb, hnone⟩ | ⟨hge, hlt, hbit, hnone⟩
      · have hfilter : ((List.range' pos (64 - pos)).filter fun j => d.bitmap.testBit j)
            = [] := by
          rw [List.filter_eq_nil_iff]
          intro x hx
          rw [List.mem_range'_1] at hx
          simp [hnone x hx.1 (by omega)]
        rw [readdir_loop_succ, hnb, if_pos (Nat.le_refl 64), hfilter]
        rfl
      · have hchild : (d.entries.getD (find_next_bit d.bitmap 64 pos) zeroEntry).ino < 32 :=
          hgood _ hlt hbit
        have hrec := ih (find_next_bit d.bitmap 64 pos + 1) (by omega) hgood
        rw [readdir_loop_succ, if_neg (by omega), if_neg (by omega), hrec,
          filter_range'_split d.bitmap pos (find_next_bit d.bitmap 64 pos) 64 hge hlt hbit hnone]
        rfl

theorem readdir_loop_bad (fs : FS) (d : DirData) :
    ∀ fuel pos i, 64 ≤ pos + fuel → pos ≤ i → i < 64 →
      d.bitmap.testBit i = true →
      32 ≤ (d.entries.getD i zeroEntry).ino →
      (∀ j, j < i → pos ≤ j → d.bitmap.testBit j = true →
        (d.entries.getD j zeroEntry).ino < 32) →
      ∃ p, readdir_loop fs d (fuel + 1) pos =
        (((List.range' pos (i - pos)).filter fun j => d.bitmap.testBit j).map (emitOf fs d),
          p, 1) := by
  intro fuel
  induction fuel with
  | zero =>
    intro pos i h hpi hi64 hbit hbad hgood
    exact absurd hpi (by omega)
  | succ n ih =>
    intro pos i h hpi hi64 hbit hbad hgood
    have hplt : pos < 64 := by omega
    rcases find_next_bit_spec d.bitmap 64 pos (by omega) with
      ⟨hnb, hnone⟩ | ⟨hge, hlt, hbit', hnone⟩
    · have := hnone i hpi hi64
      rw [hbit] at this
      exact absurd this (by simp)
    · have hidxle : find_next_bit d.bitmap 64 pos ≤ i := by
        by_contra hgt
        push_neg at hgt
        have hcontra := hnone i hpi hgt
        rw [hbit] at hcontra
        exact absurd hcontra (by simp)
      rcases Nat.eq_or_lt_of_le hidxle with heq | hlt2
      · refine ⟨pos, ?_⟩
        have hfilter : ((List.range' pos (i - pos)).filter fun j => d.bitmap.testBit j)
            = [] := by
          rw [List.filter_eq_nil_iff]
          intro x hx
          rw [List.mem_range'_1] at hx
          simp [hnone x hx.1 (by omega)]
        rw [readdir_loop_succ, heq, if_neg (by omega), if_pos hbad, hfilter]
        rfl
      · have hchild : (d.entries.getD (find_next_bit d.bitmap 64 pos) zeroEntry).ino < 32 :=
          hgood _ hlt2 hge hbit'
        obtain ⟨p, hp⟩ := ih (find_next_bit d.bitmap 64 pos + 1) i (by omega) (by omega) hi64
          hbit hbad (fun j hji hj hb => hgood j hji (by omega) hb)
        refine ⟨p, ?_⟩
        rw [readdir_loop_succ, if_neg (by omega), if_neg (by omega), hp,
          filter_range'_split d.bitmap pos (find_next_bit d.bitmap 64 pos) i hge hlt2 hbit' hnone]
        rfl

/-- C10: `arrayfs_readdir` semantics.  (1) When the iteration from `pos`
reaches an occupied slot `i` whose stored child inode number is ≥ 32 (all
earlier reachable occupied slots being valid), it returns the nonzero
result 1 having emitted exactly the occupied slots before `i` and neither
slot `i` nor any later slot.  (2) When every occupied slot carries a child
inode number < 32, iteration from position 0 emits every occupied slot in
ascending order and returns 0 with the cursor at 64.  (3) After emitting
the occupied slot `i`, the loop continues with the cursor advanced to
`i + 1`. -/
theorem readdir_semantics :
    (∀ (fs : FS) (dirino pos i : Nat), dirino < 32 → pos ≤ i → i < 64 →
        (fs.dirOf dirino).bitmap.testBit i = true →
        32 ≤ ((fs.dirOf dirino).entries.getD i zeroEntry).ino →
        (∀ j, j < i → pos ≤ j → (fs.dirOf dirino).bitmap.testBit j = true →
          ((fs.dirOf dirino).entries.getD j zeroEntry).ino < 32) →
        ∃ p, arrayfs_readdir fs dirino pos =
          Except.ok ((((List.range' pos (i - pos)).filter fun j =>
              (fs.dirOf dirino).bitmap.testBit j).map (emitOf fs (fs.dirOf dirino))), p, 1)) ∧
    (∀ (fs : FS) (dirino : Nat), dirino < 32 →
        (∀ j, j < 64 → (fs.dirOf dirino).bitmap.testBit j = true →
          ((fs.dirOf dirino).entries.getD j zeroEntry).ino < 32) →
        arrayfs_readdir fs dirino 0 =
          Except.ok ((((List.range 64).filter fun j =>
              (fs.dirOf dirino).bitmap.testBit j).map (emitOf fs (fs.dirOf dirino))), 64, 0)) ∧
    (∀ (fs : FS) (d : DirData) (fuel pos i : Nat),
        find_next_bit d.bitmap 64 pos = i → i < 64 →
        (d.entries.getD i zeroEntry).ino < 32 →
        readdir_loop fs d (fuel + 1) pos =
          (emitOf fs d i :: (readdir_loop fs d fuel (i + 1)).1,
            (readdir_loop fs d fuel (i + 1)).2)) := by
  refine ⟨?_, ?_, ?_⟩
  · intro fs dirino pos i hdir hpi hi hbit hbad hgood
    obtain ⟨p, hp⟩ := readdir_loop_bad fs (fs.dirOf dirino) 64 pos i (by omega) hpi hi hbit
      hbad hgood
    refine ⟨p, ?_⟩
    unfold arrayfs_readdir
    rw [if_neg (by omega), show (65 : Nat) = 64 + 1 from rfl, hp]
  · intro fs dirino hdir hgood
    have hp := readdir_loop_good fs (fs.dirOf dirino) 64 0 (by omega) hgood
    unfold arrayfs_readdir
    rw [if_neg (by omega), show (65 : Nat) = 64 + 1 from rfl, hp, Nat.sub_zero,
      ← List.range_eq_range']
  · intro fs d fuel pos i hnb hi hchild
    rw [readdir_loop_succ, hnb, if_neg (by omega), if_neg (by omega)]

/-- Witness for C10: `badSlotDir` (valid slot 1, out-of-range child at
slot 3) stops with result 1 after emitting slot 1 only; `goodDir` (valid
slots 2 and 5) is emitted in full with cursor 64 and result 0; the loop
on `goodDir` steps from cursor 0 to cursor 3 after emitting slot 2. -/
theorem readdir_semantics_witness :
    (∃ p, arrayfs_readdir badSlotFS 0 0 = Except.ok
      ((((List.range' 0 (3 - 0)).filter fun j => (badSlotFS.dirOf 0).bitmap.testBit j).map
        (emitOf badSlotFS (badSlotFS.dirOf 0))), p, 1)) ∧
    arrayfs_readdir goodDirFS 0 0 = Except.ok
      ((((List.range 64).filter fun j => (goodDirFS.dirOf 0).bitmap.testBit j).map
        (emitOf goodDirFS (goodDirFS.dirOf 0))), 64, 0) ∧
    readdir_loop goodDirFS goodDir (64 + 1) 0 =
      (emitOf goodDirFS goodDir 2 :: (readdir_loop goodDirFS goodDir 64 (2 + 1)).1,
        (readdir_loop goodDirFS goodDir 64 (2 + 1)).2) :=
  ⟨readdir_semantics.1 badSlotFS 0 0 3 (by decide) (by decide) (by decide) (by decide)
      (by decide) (by decide),
    readdir_semantics.2.1 goodDirFS 0 (by decide) (by decide),
    readdir_semantics.2.2 goodDirFS goodDir 64 0 2 (by decide) (by decide) (by decide)⟩
